import Mathlib

/-!
Verification of the kAirPods service core against its specification.

The development shallowly embeds the two core components of the repository:

* `RingBuf T N` — the fixed-capacity overwrite-oldest circular buffer of
  `service/src/ringbuf.rs` (`RingBuf<T, N>`).  Rust's fixed array `[T; N]` is
  embedded as a `List T` together with the well-formedness predicate
  `RingBuf.WF` stating that the list has length `N`; the unbounded `usize`
  counter `tail` is embedded as `Nat`.
* The event dispatcher of `service/src/main.rs` (`EventProcessor`):
  the per-envelope translation `dispatch` into IPC actions, the
  failure-isolating dispatcher loop, and one iteration of the `recv`
  wait loop.

All definitions are executable; theorems about them follow below the
definitions.
-/

/-- Embedding of `RingBuf<T, N>` from `service/src/ringbuf.rs`:
`data: [T; N]` becomes a `List T` (length `N` under `RingBuf.WF`),
`tail: usize` becomes a `Nat`. -/
structure RingBuf (T : Type) (N : Nat) where
  data : List T
  tail : Nat
deriving DecidableEq, Repr

/-- Well-formedness: the embedded storage list has the physical length `N`,
exactly as the Rust array `[T; N]` does by construction. -/
def RingBuf.WF {T : Type} {N : Nat} (r : RingBuf T N) : Prop := r.data.length = N

/-- `RingBuf::new()`: all slots default-initialized (the default value is passed
explicitly, standing for `T::default()`), `tail = 0`. -/
def RingBuf.new (T : Type) (N : Nat) (d : T) : RingBuf T N :=
  ⟨List.replicate N d, 0⟩

/-- `RingBuf::len()`: `if self.tail > N { N } else { self.tail }`. -/
def RingBuf.len {T : Type} {N : Nat} (r : RingBuf T N) : Nat :=
  if N < r.tail then N else r.tail

/-- `RingBuf::is_empty()`: `self.tail == 0`. -/
def RingBuf.isEmpty {T : Type} {N : Nat} (r : RingBuf T N) : Bool :=
  r.tail == 0

/-- `RingBuf::head()`: `if self.tail > N { (self.tail - N) % N } else { 0 }`. -/
def RingBuf.head {T : Type} {N : Nat} (r : RingBuf T N) : Nat :=
  if N < r.tail then (r.tail - N) % N else 0

/-- `RingBuf::phys_index(logical)`: `(self.head() + logical) % N`. -/
def RingBuf.physIndex {T : Type} {N : Nat} (r : RingBuf T N) (logical : Nat) : Nat :=
  (r.head + logical) % N

/-- `RingBuf::push(value)`: `self.data[self.tail % N] = value; self.tail += 1`. -/
def RingBuf.push {T : Type} {N : Nat} (r : RingBuf T N) (value : T) : RingBuf T N :=
  ⟨r.data.set (r.tail % N) value, r.tail + 1⟩

/-- `RingBuf::clear()`: `self.tail = 0` (storage is kept, overwritten lazily). -/
def RingBuf.clear {T : Type} {N : Nat} (r : RingBuf T N) : RingBuf T N :=
  ⟨r.data, 0⟩

/-- `RingBuf::get(index)`: `None` if `index >= len()`, otherwise the element at
the physical index `phys_index(index)` (the in-bounds array read of the
source is embedded as the optional list read `l[i]?`, which coincides with
it on well-formed states). -/
def RingBuf.get {T : Type} {N : Nat} (r : RingBuf T N) (index : Nat) : Option T :=
  if r.len ≤ index then none else r.data[r.physIndex index]?

/-- `RingBuf::last()`: `None` if empty, otherwise `get(len() - 1)`. -/
def RingBuf.last {T : Type} {N : Nat} (r : RingBuf T N) : Option T :=
  if r.isEmpty then none else r.get (r.len - 1)

/-- `RingBuf::as_slices()`: the pair of contiguous views.  Rust's
`&data[a..b]` is embedded as `(data.drop a).take (b - a)`, `&data[a..]`
as `data.drop a` and `&data[..b]` as `data.take b`. -/
def RingBuf.asSlices {T : Type} {N : Nat} (r : RingBuf T N) : List T × List T :=
  if r.len = 0 then ([], [])
  else
    let h := r.head
    let tp := r.tail % N
    if r.tail ≤ N ∨ h < tp then
      ((r.data.drop h).take (tp - h), ([] : List T))
    else
      (r.data.drop h, r.data.take tp)

/-- `RingBuf::iter()` drained to a list: `RingIter::next` yields all of `left`
and then all of `right`, i.e. the concatenation of the two views of
`as_slices`. -/
def RingBuf.iter {T : Type} {N : Nat} (r : RingBuf T N) : List T :=
  (r.asSlices).1 ++ (r.asSlices).2

/-- `RingBuf::truncate_front(count)`: no-op when `count >= len()`; otherwise
`oldest = (tail - count) % N`, `data.rotate_left(oldest)` (embedded as
`drop oldest ++ take oldest`), `tail = count`. -/
def RingBuf.truncateFront {T : Type} {N : Nat} (r : RingBuf T N) (count : Nat) : RingBuf T N :=
  if r.len ≤ count then r
  else
    let oldest := (r.tail - count) % N
    ⟨r.data.drop oldest ++ r.data.take oldest, count⟩

/-- `Extend::extend`: pushes each element of the sequence in order. -/
def RingBuf.extend {T : Type} {N : Nat} (r : RingBuf T N) (vs : List T) : RingBuf T N :=
  vs.foldl RingBuf.push r

/-- A buffer built by pushing `vs`, in order, into an initially empty ring
(`FromIterator::from_iter` in the source: `new` followed by `extend`). -/
def RingBuf.fromList (T : Type) (N : Nat) (d : T) (vs : List T) : RingBuf T N :=
  (RingBuf.new T N d).extend vs

/-- Specification-side abstraction (not a source function): the logical
contents of the buffer, oldest to newest — the element at each logical
index `i < len()`, read at physical index `(head + i) % N`. -/
def RingBuf.contents {T : Type} [Inhabited T] {N : Nat} (r : RingBuf T N) : List T :=
  (List.range r.len).map (fun i => r.data.getD ((r.head + i) % N) default)

/-!
Panic-site predicates.  Each predicate records, for one source operation, the
side conditions under which every partial primitive it executes is defined:
`x % N` demands `N ≠ 0` (remainder by zero panics in Rust), every array read
or write demands an index below the storage length, a Rust slice `&d[a..b]`
demands `a ≤ b ≤ len`, `rotate_left(mid)` demands `mid ≤ len`, and a `usize`
subtraction demands that it not underflow.
-/

/-- `push` writes `data[tail % N]`: needs `N ≠ 0` and the index in bounds. -/
def RingBuf.pushOk {T : Type} {N : Nat} (r : RingBuf T N) : Prop :=
  N ≠ 0 ∧ r.tail % N < r.data.length

/-- `head` computes `(tail - N) % N` only when `tail > N`: needs `N ≠ 0`
in that branch. -/
def RingBuf.headOk {T : Type} {N : Nat} (r : RingBuf T N) : Prop :=
  r.tail ≤ N ∨ N ≠ 0

/-- `phys_index` computes `(head() + logical) % N` and the result is used to
read `data`: needs `N ≠ 0` and the read in bounds. -/
def RingBuf.physIndexOk {T : Type} {N : Nat} (r : RingBuf T N) (logical : Nat) : Prop :=
  N ≠ 0 ∧ (r.head + logical) % N < r.data.length

/-- `get(i)` either returns early (`i ≥ len`) or evaluates `head` and reads
`data[phys_index(i)]`. -/
def RingBuf.getOk {T : Type} {N : Nat} (r : RingBuf T N) (i : Nat) : Prop :=
  r.len ≤ i ∨ (r.headOk ∧ r.physIndexOk i)

/-- `last` either returns early (empty) or computes `len() - 1` (no
underflow needs `1 ≤ len`) and calls `get`. -/
def RingBuf.lastOk {T : Type} {N : Nat} (r : RingBuf T N) : Prop :=
  r.tail = 0 ∨ (1 ≤ r.len ∧ r.getOk (r.len - 1))

/-- `as_slices` either returns early (`len = 0`) or evaluates `head`,
`tail % N` and takes one of the two slice pairs, whose bounds must be
ordered and within the storage length. -/
def RingBuf.asSlicesOk {T : Type} {N : Nat} (r : RingBuf T N) : Prop :=
  r.len = 0 ∨ (r.headOk ∧ N ≠ 0 ∧
    (if r.tail ≤ N ∨ r.head < r.tail % N
     then r.head ≤ r.tail % N ∧ r.tail % N ≤ r.data.length
     else r.head ≤ r.data.length ∧ r.tail % N ≤ r.data.length))

/-- `truncate_front(c)` either returns early (`c ≥ len`) or computes
`tail - c` (no underflow) and `% N` (needs `N ≠ 0`), then
`rotate_left(oldest)` (needs `oldest ≤ len`). -/
def RingBuf.truncateFrontOk {T : Type} {N : Nat} (r : RingBuf T N) (c : Nat) : Prop :=
  r.len ≤ c ∨ (c ≤ r.tail ∧ N ≠ 0 ∧ (r.tail - c) % N ≤ r.data.length)

/-!
Embedding of the event pipeline of `service/src/main.rs`.

The device and event payload types live in repository modules that are not
part of the four source files (`airpods`, `event`); they are modelled from
the spec where noted.  The dispatch translation itself, the dispatcher loop
and the `recv` algorithm are translated from `service/src/main.rs`.
-/

/-- Modelled from the spec: the opaque, cheaply cloneable `DeviceHandle`
(`AirPods` in the source) exposing a stable textual address
(`device.address_str()`). -/
structure AirPods where
  addressStr : String
deriving DecidableEq, Repr

/-- Modelled from the spec: a battery snapshot; only its serialization
(`battery.to_json().to_string()`) is observable to the dispatcher, so the
snapshot is carried in already-serialized form. -/
structure Battery where
  json : String
deriving DecidableEq, Repr

/-- Modelled from the spec: a noise-control mode; only its textual rendering
(`mode.to_str()`) is observable to the dispatcher. -/
structure NoiseControlMode where
  str : String
deriving DecidableEq, Repr

/-- Modelled from the spec: the ear-detection state with its two ear-presence
flags (`is_left_in_ear()` / `is_right_in_ear()`) and its serialization
(`ear_detection.to_json().to_string()`), carried abstractly. -/
structure EarDetection where
  leftInEar : Bool
  rightInEar : Bool
  json : String
deriving DecidableEq, Repr

/-- The `AirPodsEvent` domain-event variants, as matched by
`EventProcessor::dispatch` in `service/src/main.rs`. -/
inductive AirPodsEvent where
  | DeviceConnected
  | DeviceDisconnected
  | BatteryUpdated (battery : Battery)
  | NoiseControlChanged (mode : NoiseControlMode)
  | EarDetectionChanged (ear : EarDetection)
  | DeviceNameChanged (name : String)
  | DeviceError
deriving DecidableEq, Repr

/-- The IPC actions the dispatcher can perform: the seven D-Bus signals of
`AirPodsService` and the two property-change notifications. -/
inductive IpcAction where
  | deviceConnected (address : String)
  | deviceDisconnected (address : String)
  | batteryUpdated (address battery : String)
  | noiseControlChanged (address mode : String)
  | earDetectionChanged (address ear : String)
  | deviceNameChanged (address name : String)
  | deviceError (address : String)
  | devicesChanged
  | connectedCountChanged
deriving DecidableEq, Repr

/-- The media-control commands (`media_control::send_play` /
`media_control::send_pause`). -/
inductive MediaAction where
  | play
  | pause
deriving DecidableEq, Repr

/-- One step performed while dispatching an envelope: a fallible IPC
publish, or an infallible media-control command. -/
inductive Step where
  | ipc (a : IpcAction)
  | media (m : MediaAction)
deriving DecidableEq, Repr

/-- The straight-line step sequence of each arm of
`EventProcessor::dispatch` (`service/src/main.rs`, lines 146-243), in source
order.  The media command of the `EarDetectionChanged` arm is
`send_play()` iff `is_left_in_ear() && is_right_in_ear()`, else
`send_pause()`. -/
def dispatchSteps (device : AirPods) (event : AirPodsEvent) : List Step :=
  let addr := device.addressStr
  match event with
  | .DeviceConnected =>
      [.ipc (.deviceConnected addr), .ipc .devicesChanged, .ipc .connectedCountChanged]
  | .DeviceDisconnected =>
      [.ipc (.deviceDisconnected addr), .ipc .devicesChanged, .ipc .connectedCountChanged]
  | .BatteryUpdated b =>
      [.ipc (.batteryUpdated addr b.json), .ipc .devicesChanged]
  | .NoiseControlChanged m =>
      [.ipc (.noiseControlChanged addr m.str), .ipc .devicesChanged]
  | .EarDetectionChanged e =>
      [.ipc (.earDetectionChanged addr e.json), .ipc .devicesChanged,
       .media (if e.leftInEar && e.rightInEar then .play else .pause)]
  | .DeviceNameChanged n =>
      [.ipc (.deviceNameChanged addr n), .ipc .devicesChanged]
  | .DeviceError =>
      [.ipc (.deviceError addr), .ipc .devicesChanged]

/-- Executes a step sequence the way the `?` operator sequences the source:
an IPC action that fails aborts the rest of the sequence and reports the
failing action; media commands do not fail (their errors are handled inside
`media_control`).  Returns the steps actually performed and the failure, if
any.  `fails` is the environment: which IPC publishes return `Err`. -/
def execSteps (fails : IpcAction → Bool) : List Step → List Step × Option IpcAction
  | [] => ([], none)
  | .ipc a :: rest =>
      if fails a then ([], some a)
      else
        let res := execSteps fails rest
        (.ipc a :: res.1, res.2)
  | .media m :: rest =>
      let res := execSteps fails rest
      (.media m :: res.1, res.2)

/-- `EventProcessor::dispatch` under the publish environment `fails`. -/
def dispatch (fails : IpcAction → Bool) (device : AirPods) (event : AirPodsEvent) :
    List Step × Option IpcAction :=
  execSteps fails (dispatchSteps device event)

/-- The dispatcher loop body of `EventProcessor::spawn_dispatcher`: for each
received envelope in order, dispatch it; a dispatch error is logged
(`warn!`) and the loop continues with the next envelope. -/
def dispatcherLoop (fails : IpcAction → Bool) :
    List (AirPods × AirPodsEvent) → List (List Step × Option IpcAction)
  | [] => []
  | (device, event) :: rest =>
      let res := dispatch fails device event
      res :: dispatcherLoop fails rest

/-- The IPC actions among a list of performed steps, in order. -/
def ipcOf (steps : List Step) : List IpcAction :=
  steps.filterMap (fun s => match s with | .ipc a => some a | .media _ => none)

/-- The publish environment in which every IPC publish succeeds. -/
def noFail : IpcAction → Bool := fun _ => false

/-- The possible outcomes of one iteration of the `recv` loop body:
an envelope, the terminal "no more producers" outcome (`None` in the
source), or going to sleep on the registered notification.  There is no
error constructor — `recv` has no error path. -/
inductive RecvOutcome (α : Type) where
  | item (a : α)
  | terminated
  | wait
deriving DecidableEq, Repr

/-- One iteration of the loop body of `EventProcessor::recv`
(`service/src/main.rs`, lines 130-144): pop; if empty, register for the next
notification and pop again; if still empty and the consumer holds the only
remaining `Arc` reference (`strong_count == 1`), report termination;
otherwise await the notification (with a 1 s timeout) and loop.  `q1` and
`q2` are the queue snapshots at the two pops and `strongCount` the reference
count at the check. -/
def recvAttempt {α : Type} (q1 q2 : List α) (strongCount : Nat) : RecvOutcome α :=
  match q1 with
  | a :: _ => .item a
  | [] =>
    match q2 with
    | a :: _ => .item a
    | [] => if strongCount = 1 then .terminated else .wait

section RingBasics

variable {T : Type} {N : Nat}

theorem RingBuf.push_tail (r : RingBuf T N) (v : T) : (r.push v).tail = r.tail + 1 := rfl

theorem RingBuf.clear_tail (r : RingBuf T N) : (r.clear).tail = 0 := rfl

theorem RingBuf.extend_tail (r : RingBuf T N) (vs : List T) :
    (r.extend vs).tail = r.tail + vs.length := by
  induction vs generalizing r with
  | nil => simp [RingBuf.extend]
  | cons v vs ih =>
    show ((r.push v).extend vs).tail = _
    rw [ih, RingBuf.push_tail]
    simp [Nat.add_comm, Nat.add_assoc, Nat.add_left_comm]

theorem RingBuf.truncateFront_tail (r : RingBuf T N) (c : Nat) :
    (r.truncateFront c).tail = if c < r.len then c else r.tail := by
  by_cases h : r.len ≤ c
  · rw [RingBuf.truncateFront, if_pos h, if_neg (by omega)]
  · rw [RingBuf.truncateFront, if_neg h, if_pos (by omega)]

theorem RingBuf.push_wf {r : RingBuf T N} (wf : r.WF) (v : T) : (r.push v).WF := by
  simpa [RingBuf.WF, RingBuf.push] using wf

theorem RingBuf.clear_wf {r : RingBuf T N} (wf : r.WF) : (r.clear).WF := wf

theorem RingBuf.new_wf (d : T) : (RingBuf.new T N d).WF := by
  simp [RingBuf.WF, RingBuf.new]

theorem RingBuf.extend_wf {r : RingBuf T N} (wf : r.WF) (vs : List T) : (r.extend vs).WF := by
  induction vs generalizing r with
  | nil => exact wf
  | cons v vs ih => exact ih (r.push_wf wf v)

theorem RingBuf.fromList_wf (d : T) (vs : List T) : (RingBuf.fromList T N d vs).WF :=
  RingBuf.extend_wf (RingBuf.new_wf d) vs

theorem RingBuf.fromList_tail (d : T) (vs : List T) :
    (RingBuf.fromList T N d vs).tail = vs.length := by
  rw [RingBuf.fromList, RingBuf.extend_tail]
  simp [RingBuf.new]

theorem RingBuf.len_le_cap (r : RingBuf T N) : r.len ≤ N ∨ r.len = r.tail := by
  rw [RingBuf.len]
  split <;> omega

theorem RingBuf.len_le_tail (r : RingBuf T N) : r.len ≤ r.tail := by
  rw [RingBuf.len]; split <;> omega

theorem RingBuf.len_eq_min (r : RingBuf T N) : r.len = min r.tail N := by
  rw [RingBuf.len]; split <;> omega

theorem RingBuf.head_of_cap_le {r : RingBuf T N} (h : N ≤ r.tail) :
    r.head = r.tail % N := by
  rw [RingBuf.head]
  by_cases hc : N < r.tail
  · rw [if_pos hc]
    conv_rhs => rw [show r.tail = (r.tail - N) + N by omega]
    rw [Nat.add_mod_right]
  · rw [if_neg hc]
    have : r.tail = N := by omega
    rw [this, Nat.mod_self]

theorem RingBuf.head_lt {r : RingBuf T N} (hN : 1 ≤ N) : r.head < N := by
  rw [RingBuf.head]
  split
  · exact Nat.mod_lt _ (by omega)
  · omega

end RingBasics

section Helpers

/-- Remainder of a sum that is less than twice the modulus. -/
theorem modTwoCases (a n : Nat) (h : a < 2 * n) :
    a % n = if a < n then a else a - n := by
  split
  · exact Nat.mod_eq_of_lt (by assumption)
  · rw [Nat.mod_eq_sub_mod (by omega)]
    exact Nat.mod_eq_of_lt (by omega)

/-- Reading a left-rotation `drop o ++ take o` at `k` is reading the original
list at `(o + k) % length`. -/
theorem rotateRead {α : Type} (l : List α) (d : α) (o k : Nat)
    (ho : o ≤ l.length) (hk : k < l.length) :
    (l.drop o ++ l.take o).getD k d = l.getD ((o + k) % l.length) d := by
  rw [List.getD_eq_getElem?_getD, List.getD_eq_getElem?_getD]
  by_cases hcase : k < l.length - o
  · rw [List.getElem?_append_left (by simpa using hcase), List.getElem?_drop,
      Nat.mod_eq_of_lt (by omega)]
  · rw [List.getElem?_append_right (by simpa using hcase)]
    simp only [List.length_drop]
    rw [List.getElem?_take_of_lt (by omega),
      modTwoCases _ _ (by omega), if_neg (by omega)]
    have hidx : k - (l.length - o) = o + k - l.length := by omega
    rw [hidx]

/-- Mapping default-reads over `range m` recovers `take m`. -/
theorem mapRangeRead {α : Type} (l : List α) (d : α) :
    ∀ m, m ≤ l.length → (List.range m).map (fun i => l.getD i d) = l.take m := by
  intro m hm
  induction m with
  | zero => simp
  | succ k ih =>
    rw [List.range_succ, List.map_append, ih (by omega), List.take_succ]
    simp only [List.map_cons, List.map_nil]
    rw [List.getD_eq_getElem?_getD, List.getElem?_eq_getElem (by omega)]
    rfl

end Helpers

section RingContents

variable {T : Type} [Inhabited T] {N : Nat}

theorem RingBuf.contents_length (r : RingBuf T N) : r.contents.length = r.len := by
  simp [RingBuf.contents]

theorem RingBuf.contents_getElem? (r : RingBuf T N) (k : Nat) (hk : k < r.len) :
    r.contents[k]? = some (r.data.getD ((r.head + k) % N) default) := by
  rw [RingBuf.contents, List.getElem?_map, List.getElem?_range hk]
  rfl

theorem RingBuf.contents_getD (r : RingBuf T N) (k : Nat) (hk : k < r.len) :
    r.contents.getD k default = r.data.getD ((r.head + k) % N) default := by
  rw [List.getD_eq_getElem?_getD, r.contents_getElem? k hk]
  rfl

end RingContents

section RingContentsPush

variable {T : Type} [Inhabited T] {N : Nat}

/-- Reading a point-update at `k`. -/
theorem setRead {α : Type} (l : List α) (d v : α) (m k : Nat) (hm : m < l.length) :
    (l.set m v).getD k d = if m = k then v else l.getD k d := by
  rw [List.getD_eq_getElem?_getD, List.getD_eq_getElem?_getD]
  by_cases h : m = k
  · subst h
    rw [if_pos rfl, List.getElem?_set_self hm]
    rfl
  · rw [if_neg h, List.getElem?_set_ne h]

theorem RingBuf.contents_getElem?_none (r : RingBuf T N) (k : Nat) (hk : r.len ≤ k) :
    r.contents[k]? = none :=
  List.getElem?_eq_none (by rw [RingBuf.contents_length]; exact hk)


/-- Effect of one `push` on the logical contents: append while below capacity,
evict the oldest element once full. -/
theorem RingBuf.contents_push {r : RingBuf T N} (wf : r.WF) (hN : 1 ≤ N) (v : T) :
    (r.push v).contents =
      if r.tail < N then r.contents ++ [v] else r.contents.drop 1 ++ [v] := by
  have hset : (r.push v).data = r.data.set (r.tail % N) v := rfl
  have ht' : (r.push v).tail = r.tail + 1 := rfl
  by_cases hlt : r.tail < N
  · -- below capacity: contents grow by one at the end
    have hlen : r.len = r.tail := by rw [RingBuf.len, if_neg (by omega)]
    have hhd : r.head = 0 := by rw [RingBuf.head, if_neg (by omega)]
    have hlen' : (r.push v).len = r.tail + 1 := by
      rw [RingBuf.len, ht', if_neg (by omega)]
    have hhd' : (r.push v).head = 0 := by
      rw [RingBuf.head, ht', if_neg (by omega)]
    rw [if_pos hlt]
    apply List.ext_getElem?
    intro k
    by_cases hk : k < r.tail + 1
    · rw [RingBuf.contents_getElem? _ k (by omega), hhd', hset, Nat.zero_add,
        Nat.mod_eq_of_lt (show k < N by omega),
        Nat.mod_eq_of_lt (show r.tail < N from hlt),
        setRead _ _ _ _ _ (by rw [wf]; omega)]
      by_cases hkt : k < r.tail
      · rw [if_neg (by omega),
          List.getElem?_append_left (by rw [RingBuf.contents_length]; omega),
          RingBuf.contents_getElem? _ k (by omega), hhd, Nat.zero_add,
          Nat.mod_eq_of_lt (show k < N by omega)]
      · have hke : k = r.tail := by omega
        subst hke
        rw [List.getElem?_append_right (by rw [RingBuf.contents_length]; omega),
          if_pos rfl, RingBuf.contents_length, hlen, Nat.sub_self]
        rfl
    · rw [RingBuf.contents_getElem?_none _ k (by omega), Eq.comm,
        List.getElem?_eq_none]
      rw [List.length_append, RingBuf.contents_length, hlen]
      simp only [List.length_singleton]
      omega
  · -- at capacity: the oldest element is evicted
    have hge : N ≤ r.tail := by omega
    have hlen : r.len = N := by rw [RingBuf.len]; split <;> omega
    have hhd : r.head = r.tail % N := RingBuf.head_of_cap_le hge
    have hlen' : (r.push v).len = N := by
      rw [RingBuf.len, ht', if_pos (by omega)]
    have hhd' : (r.push v).head = (r.tail + 1) % N :=
      RingBuf.head_of_cap_le (by rw [ht']; omega)
    have hmlt : r.tail % N < N := Nat.mod_lt _ (by omega)
    rw [if_neg hlt]
    apply List.ext_getElem?
    intro k
    by_cases hk : k < N
    · rw [RingBuf.contents_getElem? _ k (by omega), hhd', hset,
        Nat.mod_add_mod, setRead _ _ _ _ _ (by rw [wf]; exact hmlt)]
      by_cases hkl : k < N - 1
      · rw [if_neg (by
          intro hcontr
          rw [show r.tail + 1 + k = r.tail + (1 + k) by omega, Nat.add_mod,
            Nat.mod_eq_of_lt (show 1 + k < N by omega),
            modTwoCases (r.tail % N + (1 + k)) N (by omega)] at hcontr
          split at hcontr <;> omega)]
        rw [List.getElem?_append_left
            (by rw [List.length_drop, RingBuf.contents_length, hlen]; omega),
          List.getElem?_drop,
          RingBuf.contents_getElem? _ (1 + k) (by omega), hhd, Nat.mod_add_mod,
          show r.tail + (1 + k) = r.tail + 1 + k by omega]
      · have hke : k = N - 1 := by omega
        rw [show (r.tail + 1 + k) % N = r.tail % N by
            rw [hke, show r.tail + 1 + (N - 1) = r.tail + N by omega, Nat.add_mod_right],
          if_pos rfl,
          List.getElem?_append_right
            (by rw [List.length_drop, RingBuf.contents_length, hlen]; omega),
          List.length_drop, RingBuf.contents_length, hlen, hke, Nat.sub_self]
        rfl
    · rw [RingBuf.contents_getElem?_none _ k (by omega), Eq.comm,
        List.getElem?_eq_none]
      rw [List.length_append, List.length_drop, RingBuf.contents_length, hlen]
      simp only [List.length_singleton]
      omega

end RingContentsPush

theorem RingBuf.fromList_len {T : Type} {N : Nat} (d : T) (vs : List T) :
    (RingBuf.fromList T N d vs).len = min vs.length N := by
  rw [RingBuf.len_eq_min, RingBuf.fromList_tail]

section RingCharacterization

variable {T : Type} [Inhabited T] {N : Nat}

/-- The logical contents of a buffer built by pushing `vs` into an empty ring
are the last `min vs.length N` pushed values, in push order. -/
theorem RingBuf.contents_fromList (d : T) (hN : 1 ≤ N) (vs : List T) :
    (RingBuf.fromList T N d vs).contents = vs.drop (vs.length - N) := by
  induction vs using List.reverseRecOn with
  | nil =>
    simp [RingBuf.fromList, RingBuf.extend, RingBuf.contents, RingBuf.new, RingBuf.len]
  | append_singleton ws v ih =>
    have hfr : RingBuf.fromList T N d (ws ++ [v]) = (RingBuf.fromList T N d ws).push v := by
      rw [RingBuf.fromList, RingBuf.extend, List.foldl_append]
      rfl
    rw [hfr, RingBuf.contents_push (RingBuf.fromList_wf d ws) hN v, RingBuf.fromList_tail, ih,
      List.length_append, List.length_singleton]
    by_cases hlt : ws.length < N
    · rw [if_pos hlt, show ws.length - N = 0 by omega, List.drop_zero,
        show ws.length + 1 - N = 0 by omega, List.drop_zero]
    · rw [if_neg hlt, List.drop_drop,
        show ws.length - N + 1 = ws.length + 1 - N by omega,
        List.drop_append_of_le_length (by omega)]

/-- `iter` (equivalently the concatenation of the two `as_slices` views),
characterized on well-formed states: it is empty when `tail = N` (the
full-but-never-wrapped state) and otherwise equals the logical contents. -/
theorem RingBuf.iter_eq {r : RingBuf T N} (wf : r.WF) (hN : 1 ≤ N) :
    r.iter = if r.tail = N then [] else r.contents := by
  by_cases h0 : r.tail = 0
  · have hlen : r.len = 0 := by rw [RingBuf.len]; split <;> omega
    have hsl : r.asSlices = ([], []) := by rw [RingBuf.asSlices, if_pos hlen]
    rw [RingBuf.iter, hsl, if_neg (by omega), RingBuf.contents, hlen]
    rfl
  · by_cases hc : r.tail < N
    · -- contiguous, not full: head = 0, tail position = tail
      have hlen : r.len = r.tail := by rw [RingBuf.len, if_neg (by omega)]
      have hhd : r.head = 0 := by rw [RingBuf.head, if_neg (by omega)]
      have hsl : r.asSlices = (r.data.take r.tail, []) := by
        rw [RingBuf.asSlices, if_neg (by omega), if_pos (Or.inl (by omega)), hhd,
          Nat.mod_eq_of_lt hc]
        simp
      rw [RingBuf.iter, hsl, if_neg (by omega), RingBuf.contents, hhd]
      simp only [Nat.zero_add, hlen, List.append_nil]
      refine ((List.map_congr_left ?_).trans
        (mapRangeRead r.data default r.tail (by rw [wf]; omega))).symm
      intro i hi
      have hilt := List.mem_range.mp hi
      rw [Nat.mod_eq_of_lt (by omega)]
    · by_cases he : r.tail = N
      · -- exactly full, never wrapped: both views are empty although len = N
        have hlen : r.len = N := by rw [RingBuf.len]; split <;> omega
        have hhd : r.head = 0 := by rw [RingBuf.head, if_neg (by omega)]
        have hsl : r.asSlices = ([], []) := by
          rw [RingBuf.asSlices, if_neg (by omega), if_pos (Or.inl (by omega)), hhd, he,
            Nat.mod_self]
          simp
        rw [RingBuf.iter, hsl, if_pos he]
        rfl
      · -- wrapped: head coincides with the tail position
        have hgt : N < r.tail := by omega
        have hlen : r.len = N := by rw [RingBuf.len, if_pos hgt]
        have hhd : r.head = r.tail % N := RingBuf.head_of_cap_le (by omega)
        have hmlt : r.tail % N < N := Nat.mod_lt _ (by omega)
        have hsl : r.asSlices = (r.data.drop r.head, r.data.take r.head) := by
          rw [RingBuf.asSlices, if_neg (by omega), if_neg (by rw [hhd]; omega), hhd]
        have happ : (r.data.drop r.head ++ r.data.take r.head).length = N := by
          rw [List.length_append, List.length_drop, List.length_take, wf]
          rw [hhd]
          omega
        rw [RingBuf.iter, hsl, if_neg he]
        apply List.ext_getElem?
        intro k
        by_cases hk : k < N
        · rw [RingBuf.contents_getElem? _ k (by omega),
            List.getElem?_eq_getElem (by rw [happ]; exact hk), Option.some_inj]
          have hg : (r.data.drop r.head ++ r.data.take r.head).getD k default
              = r.data.getD ((r.head + k) % N) default := by
            rw [rotateRead r.data default r.head k (by rw [wf, hhd]; omega)
              (by rw [wf]; exact hk), wf]
          rw [List.getD_eq_getElem?_getD,
            List.getElem?_eq_getElem (by rw [happ]; exact hk), Option.getD_some] at hg
          exact hg
        · rw [RingBuf.contents_getElem?_none _ k (by omega), List.getElem?_eq_none]
          rw [happ]
          omega

end RingCharacterization

section RingTruncate

variable {T : Type} [Inhabited T] {N : Nat}

/-- `get` agrees with optional indexing into the logical contents. -/
theorem RingBuf.get_eq_contents {r : RingBuf T N} (wf : r.WF) (hN : 1 ≤ N) (i : Nat) :
    r.get i = r.contents[i]? := by
  by_cases hi : r.len ≤ i
  · rw [RingBuf.get, if_pos hi, RingBuf.contents_getElem?_none _ _ hi]
  · rw [RingBuf.get, if_neg hi, RingBuf.contents_getElem? _ i (by omega), RingBuf.physIndex,
      List.getElem?_eq_getElem (by rw [wf]; exact Nat.mod_lt _ (by omega)),
      List.getD_eq_getElem _ _ (by rw [wf]; exact Nat.mod_lt _ (by omega))]

/-- `truncate_front` with `count < len` keeps exactly the last `count`
logical elements and repositions them to start at logical index 0. -/
theorem RingBuf.truncateFront_contents {r : RingBuf T N} (wf : r.WF) (hN : 1 ≤ N)
    {c : Nat} (hc : c < r.len) :
    (r.truncateFront c).contents = r.contents.drop (r.len - c)
    ∧ (r.truncateFront c).len = c ∧ (r.truncateFront c).WF := by
  have hcN : c < N := by
    have := r.len_eq_min
    omega
  have htail : c ≤ r.tail := by
    have := r.len_le_tail
    omega
  have ho : (r.tail - c) % N < N := Nat.mod_lt _ (by omega)
  have hdat : (r.truncateFront c).data
      = r.data.drop ((r.tail - c) % N) ++ r.data.take ((r.tail - c) % N) := by
    rw [RingBuf.truncateFront, if_neg (by omega)]
  have ht' : (r.truncateFront c).tail = c := by
    rw [RingBuf.truncateFront_tail, if_pos hc]
  have hwf : (r.truncateFront c).WF := by
    rw [RingBuf.WF, hdat, List.length_append, List.length_drop, List.length_take, wf]
    omega
  have hlen' : (r.truncateFront c).len = c := by
    rw [RingBuf.len, ht', if_neg (by omega)]
  have hhd' : (r.truncateFront c).head = 0 := by
    rw [RingBuf.head, ht', if_neg (by omega)]
  refine ⟨?_, hlen', hwf⟩
  apply List.ext_getElem?
  intro k
  by_cases hk : k < c
  · rw [RingBuf.contents_getElem? _ k (by omega), hhd', Nat.zero_add,
      Nat.mod_eq_of_lt (by omega), hdat, List.getElem?_drop,
      RingBuf.contents_getElem? _ (r.len - c + k) (by omega)]
    congr 1
    rw [rotateRead r.data default ((r.tail - c) % N) k (by rw [wf]; omega) (by rw [wf]; omega),
      wf, Nat.mod_add_mod]
    congr 1
    by_cases hcap : N < r.tail
    · rw [RingBuf.head_of_cap_le (by omega), Nat.mod_add_mod,
        show r.len = N from by rw [RingBuf.len, if_pos hcap],
        show r.tail + (N - c + k) = (r.tail - c + k) + N by omega, Nat.add_mod_right]
    · rw [show r.head = 0 from by rw [RingBuf.head, if_neg hcap], Nat.zero_add,
        show r.len = r.tail from by rw [RingBuf.len, if_neg hcap]]
  · rw [RingBuf.contents_getElem?_none _ k (by omega)]
    refine (List.getElem?_eq_none ?_).symm
    rw [List.length_drop, RingBuf.contents_length]
    omega

end RingTruncate

section RingClaims

/-- Supporting fact (not a claim): for fewer pushes than the capacity the
iteration does return the pushed values in order, so the defect below is
confined to the boundary `n = K`. -/
theorem RingBuf.fromList_iter_of_lt_cap {T : Type} [Inhabited T] {N : Nat} (d : T)
    (hN : 1 ≤ N) (vs : List T) (hn : vs.length < N) :
    (RingBuf.fromList T N d vs).iter = vs := by
  rw [RingBuf.iter_eq (RingBuf.fromList_wf d vs) hN, RingBuf.fromList_tail,
    if_neg (by omega), RingBuf.contents_fromList d hN vs,
    show vs.length - N = 0 by omega, List.drop_zero]

/-- C1: the claim states that for every `n ≤ K`, after `n` pushes
`len() = n` and `iterate()`/`as_two_slices()` yield the pushed values.  The
code violates this at the boundary `n = K`: with `K = 3` and pushes
`[1, 2, 3]`, `len()` is `3` but both views of `as_slices` are empty
(`tail % N = 0` when `tail = N`, so the contiguous branch returns
`data[0..0]`), hence `iter` yields nothing instead of `[1, 2, 3]`. -/
theorem C1_full_buffer_slices_empty :
    (RingBuf.fromList Nat 3 0 [1, 2, 3]).len = 3
    ∧ (RingBuf.fromList Nat 3 0 [1, 2, 3]).asSlices = ([], [])
    ∧ (RingBuf.fromList Nat 3 0 [1, 2, 3]).iter = []
    ∧ (RingBuf.fromList Nat 3 0 [1, 2, 3]).iter ≠ [1, 2, 3] := by
  refine ⟨by decide, by decide, by decide, by decide⟩

/-- C2: for every capacity `K ≥ 1` and every sequence of `n > K` pushes into
an initially empty buffer, `len() = K` and `iter` yields exactly the last
`K` pushed values, in push order (overwrite-oldest law). -/
theorem C2_overflow_keeps_last_K {T : Type} [Inhabited T] {N : Nat} (d : T)
    (vs : List T) (hN : 1 ≤ N) (hn : N < vs.length) :
    (RingBuf.fromList T N d vs).len = N
    ∧ (RingBuf.fromList T N d vs).iter = vs.drop (vs.length - N) := by
  refine ⟨by rw [RingBuf.fromList_len]; omega, ?_⟩
  rw [RingBuf.iter_eq (RingBuf.fromList_wf d vs) hN, RingBuf.fromList_tail,
    if_neg (by omega), RingBuf.contents_fromList d hN vs]

/-- C2 witness: capacity 2, pushes `[1, 2, 3]` — length 2, iteration `[2, 3]`. -/
theorem C2_overflow_keeps_last_K_witness :
    (RingBuf.fromList Nat 2 0 [1, 2, 3]).len = 2
    ∧ (RingBuf.fromList Nat 2 0 [1, 2, 3]).iter = [2, 3] := by
  have h := C2_overflow_keeps_last_K (N := 2) 0 [1, 2, 3] (by decide) (by decide)
  simpa using h

/-- C3 counterexample: the claim states that no operation except `clear`
ever decreases `tail`; but `truncate_front(1)` on a capacity-2 buffer with
`tail = 3` sets `tail` to `1`, a strict decrease. -/
theorem C3_truncateFront_decreases_tail :
    ((RingBuf.fromList Nat 2 0 [1, 2, 3]).truncateFront 1).tail
      < (RingBuf.fromList Nat 2 0 [1, 2, 3]).tail := by
  decide

/-- C3 (amended): `push` strictly increases `tail` by one; `extend`
increases it by the length of the pushed sequence (strictly when nonempty);
the read-only operations do not touch the state; `clear` resets `tail` to
`0`; and `truncate_front(c)` leaves `tail` unchanged when `c ≥ len()` but
lowers it to `c` when `c < len()` — so `tail` is non-decreasing under every
operation except `clear` *and* `truncate_front`. -/
theorem C3_tail_evolution {T : Type} {N : Nat} (r : RingBuf T N) (v : T)
    (vs : List T) (c : Nat) :
    (r.push v).tail = r.tail + 1
    ∧ (r.extend vs).tail = r.tail + vs.length
    ∧ (r.clear).tail = 0
    ∧ (r.truncateFront c).tail = (if c < r.len then c else r.tail) :=
  ⟨rfl, r.extend_tail vs, rfl, r.truncateFront_tail c⟩

/-- C4: on a buffer built from pushes `vs`, `truncate_front(c)` with
`c < len()` leaves exactly the `c` most-recently-pushed values, in push
order and indexable from logical index 0; with `c ≥ len()` the state is
unchanged; and `truncate_front(0)` empties the buffer, with the same `tail`
as `clear()`. -/
theorem C4_truncateFront_spec {T : Type} [Inhabited T] {N : Nat} (d : T)
    (vs : List T) (c : Nat) (hN : 1 ≤ N) :
    (c < (RingBuf.fromList T N d vs).len →
       ((RingBuf.fromList T N d vs).truncateFront c).len = c
       ∧ ((RingBuf.fromList T N d vs).truncateFront c).contents
           = vs.drop (vs.length - c)
       ∧ ∀ i : Nat, ((RingBuf.fromList T N d vs).truncateFront c).get i
           = (vs.drop (vs.length - c))[i]?)
    ∧ ((RingBuf.fromList T N d vs).len ≤ c →
       (RingBuf.fromList T N d vs).truncateFront c = RingBuf.fromList T N d vs)
    ∧ ((RingBuf.fromList T N d vs).truncateFront 0).tail
        = ((RingBuf.fromList T N d vs).clear).tail
    ∧ ((RingBuf.fromList T N d vs).truncateFront 0).len = 0 := by
  have wf := RingBuf.fromList_wf (N := N) d vs
  have htl := RingBuf.fromList_tail (N := N) d vs
  have hmin := RingBuf.len_eq_min (RingBuf.fromList T N d vs)
  have htr0 : ((RingBuf.fromList T N d vs).truncateFront 0).tail = 0 := by
    rw [RingBuf.truncateFront_tail]
    split
    · rfl
    · omega
  refine ⟨?_, ?_, ?_, ?_⟩
  · intro hc
    obtain ⟨hcon, hlen, hwf⟩ := RingBuf.truncateFront_contents wf hN hc
    have hdropped : ((RingBuf.fromList T N d vs).truncateFront c).contents
        = vs.drop (vs.length - c) := by
      rw [hcon, RingBuf.contents_fromList d hN vs, List.drop_drop]
      congr 1
      omega
    refine ⟨hlen, hdropped, ?_⟩
    intro i
    rw [RingBuf.get_eq_contents hwf hN i, hdropped]
  · intro hc
    rw [RingBuf.truncateFront, if_pos hc]
  · rw [htr0, RingBuf.clear_tail]
  · rw [RingBuf.len_eq_min, htr0]
    simp

/-- C4 witness: capacity 3, pushes `[1, 2, 3, 4, 5]` — truncating to the 2
most recent keeps `[4, 5]`, truncating to 7 is a no-op, truncating to 0
empties. -/
theorem C4_truncateFront_spec_witness :
    ((RingBuf.fromList Nat 3 0 [1, 2, 3, 4, 5]).truncateFront 2).len = 2
    ∧ ((RingBuf.fromList Nat 3 0 [1, 2, 3, 4, 5]).truncateFront 2).contents = [4, 5]
    ∧ ((RingBuf.fromList Nat 3 0 [1, 2, 3, 4, 5]).truncateFront 2).get 1 = some 5
    ∧ (RingBuf.fromList Nat 3 0 [1, 2, 3, 4, 5]).truncateFront 7
        = RingBuf.fromList Nat 3 0 [1, 2, 3, 4, 5]
    ∧ ((RingBuf.fromList Nat 3 0 [1, 2, 3, 4, 5]).truncateFront 0).len = 0 := by
  have h := C4_truncateFront_spec (N := 3) 0 [1, 2, 3, 4, 5] 2 (by decide)
  have h7 := C4_truncateFront_spec (N := 3) 0 [1, 2, 3, 4, 5] 7 (by decide)
  have h1 := h.1 (by decide)
  exact ⟨h1.1, by simpa using h1.2.1, by simpa using h1.2.2 1,
    h7.2.1 (by decide), h.2.2.2⟩

/-- C9: on every well-formed state of a buffer with capacity `N ≥ 1`, every
operation satisfies its panic-site side conditions — every array index used
is below `N`, every slice bound is ordered and within `N`, the rotation
amount is within `N`, and the subtraction `tail - count` in `truncate_front`
cannot underflow; while for `N = 0`, `push` violates its side condition
(`tail % N` is a remainder by zero), so `N ≥ 1` is a necessary
precondition. -/
theorem C9_panic_free {T : Type} {N : Nat} (r : RingBuf T N) (i c : Nat)
    (wf : r.WF) :
    (1 ≤ N →
      r.pushOk
      ∧ r.headOk
      ∧ (i < r.len → r.physIndexOk i)
      ∧ r.getOk i
      ∧ r.lastOk
      ∧ r.asSlicesOk
      ∧ r.truncateFrontOk c)
    ∧ (N = 0 → ¬ r.pushOk) := by
  rw [RingBuf.WF] at wf
  constructor
  · intro hN
    have hmin := r.len_eq_min
    refine ⟨⟨by omega, by rw [wf]; exact Nat.mod_lt _ (by omega)⟩,
      Or.inr (by omega), ?_, ?_, ?_, ?_, ?_⟩
    · intro _
      exact ⟨by omega, by rw [wf]; exact Nat.mod_lt _ (by omega)⟩
    · by_cases hi : r.len ≤ i
      · exact Or.inl hi
      · exact Or.inr ⟨Or.inr (by omega),
          by omega, by rw [wf]; exact Nat.mod_lt _ (by omega)⟩
    · by_cases h0 : r.tail = 0
      · exact Or.inl h0
      · refine Or.inr ⟨by omega, Or.inr ⟨Or.inr (by omega),
          by omega, by rw [wf]; exact Nat.mod_lt _ (by omega)⟩⟩
    · by_cases h0 : r.len = 0
      · exact Or.inl h0
      · refine Or.inr ⟨Or.inr (by omega), by omega, ?_⟩
        have hmod : r.tail % N < N := Nat.mod_lt _ (by omega)
        split
        · constructor
          · rename_i hcond
            rcases hcond with hle | hlt
            · rw [RingBuf.head, if_neg (by omega)]
              omega
            · omega
          · omega
        · constructor
          · have := RingBuf.head_lt (r := r) hN
            omega
          · omega
    · by_cases hc : r.len ≤ c
      · exact Or.inl hc
      · have hlt := r.len_le_tail
        refine Or.inr ⟨by omega, by omega, ?_⟩
        have : (r.tail - c) % N < N := Nat.mod_lt _ (by omega)
        omega
  · intro h0 hcontr
    exact hcontr.1 h0

/-- C9 witness: a concrete well-formed capacity-2 state. -/
theorem C9_panic_free_witness :
    (RingBuf.fromList Nat 2 0 [1, 2, 3]).pushOk
    ∧ (RingBuf.fromList Nat 2 0 [1, 2, 3]).getOk 1
    ∧ (RingBuf.fromList Nat 2 0 [1, 2, 3]).lastOk
    ∧ (RingBuf.fromList Nat 2 0 [1, 2, 3]).asSlicesOk
    ∧ (RingBuf.fromList Nat 2 0 [1, 2, 3]).truncateFrontOk 1 := by
  have h := (C9_panic_free (RingBuf.fromList Nat 2 0 [1, 2, 3]) 1 1
    (RingBuf.fromList_wf 0 [1, 2, 3])).1 (by decide)
  exact ⟨h.1, h.2.2.2.1, h.2.2.2.2.1, h.2.2.2.2.2.1, h.2.2.2.2.2.2⟩

end RingClaims

section DispatcherClaims

/-- C5: with every publish succeeding, each envelope is translated into
exactly the IPC action sequence of the mapping table, in order; and the
scenario Connected, BatteryUpdated("42%"), Disconnected for address
"AA:BB:CC:DD:EE:FF" yields the eight listed actions in that order. -/
theorem C5_dispatch_mapping (device : AirPods) (b : Battery)
    (m : NoiseControlMode) (e : EarDetection) (n : String) :
    ipcOf (dispatch noFail device .DeviceConnected).1
      = [.deviceConnected device.addressStr, .devicesChanged, .connectedCountChanged]
    ∧ ipcOf (dispatch noFail device .DeviceDisconnected).1
      = [.deviceDisconnected device.addressStr, .devicesChanged, .connectedCountChanged]
    ∧ ipcOf (dispatch noFail device (.BatteryUpdated b)).1
      = [.batteryUpdated device.addressStr b.json, .devicesChanged]
    ∧ ipcOf (dispatch noFail device (.NoiseControlChanged m)).1
      = [.noiseControlChanged device.addressStr m.str, .devicesChanged]
    ∧ ipcOf (dispatch noFail device (.EarDetectionChanged e)).1
      = [.earDetectionChanged device.addressStr e.json, .devicesChanged]
    ∧ ipcOf (dispatch noFail device (.DeviceNameChanged n)).1
      = [.deviceNameChanged device.addressStr n, .devicesChanged]
    ∧ ipcOf (dispatch noFail device .DeviceError).1
      = [.deviceError device.addressStr, .devicesChanged]
    ∧ ((dispatcherLoop noFail
         [(⟨"AA:BB:CC:DD:EE:FF"⟩, .DeviceConnected),
          (⟨"AA:BB:CC:DD:EE:FF"⟩, .BatteryUpdated ⟨"42%"⟩),
          (⟨"AA:BB:CC:DD:EE:FF"⟩, .DeviceDisconnected)]).map
        (fun res => ipcOf res.1)).flatten
      = [.deviceConnected "AA:BB:CC:DD:EE:FF", .devicesChanged, .connectedCountChanged,
         .batteryUpdated "AA:BB:CC:DD:EE:FF" "42%", .devicesChanged,
         .deviceDisconnected "AA:BB:CC:DD:EE:FF", .devicesChanged,
         .connectedCountChanged] :=
  ⟨rfl, rfl, rfl, rfl, rfl, rfl, rfl, rfl⟩

/-- C6: for every `EarDetectionChanged` envelope the media collaborator is
commanded to play iff both ear-presence flags are true, and to pause
otherwise — the decision predicate is exactly the conjunction of the two
flags. -/
theorem C6_ear_media_predicate (device : AirPods) (e : EarDetection) :
    (Step.media MediaAction.play ∈ (dispatch noFail device (.EarDetectionChanged e)).1
      ↔ (e.leftInEar = true ∧ e.rightInEar = true))
    ∧ (Step.media MediaAction.pause ∈ (dispatch noFail device (.EarDetectionChanged e)).1
      ↔ ¬(e.leftInEar = true ∧ e.rightInEar = true)) := by
  obtain ⟨l, r, j⟩ := e
  cases l <;> cases r <;>
    simp [dispatch, dispatchSteps, execSteps, noFail]

/-- C7: the dispatcher loop processes every queued envelope exactly once,
whatever publish failures occur: the loop result has one entry per
envelope, and the entry for envelope `i` is exactly the dispatch of that
envelope — a failure in any envelope neither halts the loop nor drops an
unrelated envelope. -/
theorem C7_loop_isolates_failures (fails : IpcAction → Bool)
    (envs : List (AirPods × AirPodsEvent)) (i : Nat) (device : AirPods)
    (event : AirPodsEvent) (h : envs[i]? = some (device, event)) :
    (dispatcherLoop fails envs).length = envs.length
    ∧ (dispatcherLoop fails envs)[i]? = some (dispatch fails device event) := by
  have hlen : ∀ l : List (AirPods × AirPodsEvent),
      (dispatcherLoop fails l).length = l.length := by
    intro l
    induction l with
    | nil => rfl
    | cons p rest ih =>
      obtain ⟨d, e⟩ := p
      simp [dispatcherLoop, ih]
  refine ⟨hlen envs, ?_⟩
  induction envs generalizing i with
  | nil => simp at h
  | cons p rest ih =>
    obtain ⟨d, e⟩ := p
    cases i with
    | zero =>
      simp only [List.getElem?_cons_zero, Option.some_inj] at h
      obtain ⟨h1, h2⟩ := Prod.mk.injEq .. ▸ h
      subst h1
      subst h2
      simp [dispatcherLoop]
    | succ j =>
      simp only [List.getElem?_cons_succ] at h
      simpa [dispatcherLoop] using ih j h

/-- C7 witness: with every publish failing, a two-envelope queue is still
fully processed and the second envelope's dispatch is present. -/
theorem C7_loop_isolates_failures_witness :
    (dispatcherLoop (fun _ => true)
        [(⟨"AA"⟩, .DeviceConnected), (⟨"BB"⟩, .DeviceError)]).length = 2
    ∧ (dispatcherLoop (fun _ => true)
        [(⟨"AA"⟩, .DeviceConnected), (⟨"BB"⟩, .DeviceError)])[1]?
      = some (dispatch (fun _ => true) ⟨"BB"⟩ .DeviceError) :=
  C7_loop_isolates_failures (fun _ => true)
    [(⟨"AA"⟩, .DeviceConnected), (⟨"BB"⟩, .DeviceError)] 1 ⟨"BB"⟩ .DeviceError rfl

/-- C8: one iteration of the `recv` loop body can only yield an envelope,
the terminal outcome or a (bounded) wait — there is no error outcome — and
the terminal outcome occurs exactly when both pops found the queue empty
and the consumer holds the only remaining reference to the shared state. -/
theorem C8_recv_no_error {α : Type} (q1 q2 : List α) (sc : Nat) :
    ((∃ a, recvAttempt q1 q2 sc = .item a)
      ∨ recvAttempt q1 q2 sc = .terminated
      ∨ recvAttempt q1 q2 sc = .wait)
    ∧ (recvAttempt q1 q2 sc = .terminated ↔ q1 = [] ∧ q2 = [] ∧ sc = 1) := by
  cases q1 with
  | cons a t => exact ⟨Or.inl ⟨a, rfl⟩, by simp [recvAttempt]⟩
  | nil =>
    cases q2 with
    | cons a t => exact ⟨Or.inl ⟨a, rfl⟩, by simp [recvAttempt]⟩
    | nil =>
      by_cases hsc : sc = 1
      · exact ⟨Or.inr (Or.inl (by simp [recvAttempt, hsc])),
          by simp [recvAttempt, hsc]⟩
      · exact ⟨Or.inr (Or.inr (by simp [recvAttempt, hsc])),
          by simp [recvAttempt, hsc]⟩

/-- C10: within a single envelope, an IPC failure aborts the remaining
actions of that envelope: a failed `device_connected` or
`device_disconnected` signal suppresses both property notifications, and
for `EarDetectionChanged` a failure of the signal or of the `devices`
notification suppresses the media play/pause side effect entirely. -/
theorem C10_failure_aborts_envelope (fails : IpcAction → Bool)
    (device : AirPods) (e : EarDetection) :
    (fails (.deviceConnected device.addressStr) = true →
       dispatch fails device .DeviceConnected
         = ([], some (.deviceConnected device.addressStr)))
    ∧ (fails (.deviceDisconnected device.addressStr) = true →
       dispatch fails device .DeviceDisconnected
         = ([], some (.deviceDisconnected device.addressStr)))
    ∧ ((fails (.earDetectionChanged device.addressStr e.json) = true
         ∨ fails IpcAction.devicesChanged = true) →
       ∀ m : MediaAction,
         Step.media m ∉ (dispatch fails device (.EarDetectionChanged e)).1) := by
  refine ⟨?_, ?_, ?_⟩
  · intro hf
    simp [dispatch, dispatchSteps, execSteps, hf]
  · intro hf
    simp [dispatch, dispatchSteps, execSteps, hf]
  · intro hf m
    by_cases h1 : fails (.earDetectionChanged device.addressStr e.json) = true
    · simp [dispatch, dispatchSteps, execSteps, h1]
    · rcases hf with hf | hf
      · exact absurd hf h1
      · simp [dispatch, dispatchSteps, execSteps, h1, hf]

/-- C10 witness: with every publish failing, a `Connected` envelope performs
nothing and reports its failed signal, and an `EarDetectionChanged`
envelope never reaches the media command. -/
theorem C10_failure_aborts_envelope_witness :
    dispatch (fun _ => true) ⟨"AA"⟩ .DeviceConnected
      = ([], some (.deviceConnected "AA"))
    ∧ dispatch (fun _ => true) ⟨"AA"⟩ .DeviceDisconnected
      = ([], some (.deviceDisconnected "AA"))
    ∧ Step.media MediaAction.pause ∉
        (dispatch (fun _ => true) ⟨"AA"⟩
          (.EarDetectionChanged ⟨true, false, "j"⟩)).1 := by
  have h := C10_failure_aborts_envelope (fun _ => true) ⟨"AA"⟩ ⟨true, false, "j"⟩
  exact ⟨h.1 rfl, h.2.1 rfl, h.2.2 (Or.inl rfl) MediaAction.pause⟩

end DispatcherClaims
